import Mathlib

/-!
Verification of the tiny-links URL-shortening service (src/index.js)
against its natural-language specification.

The Express/Postgres application is shallowly embedded: the links table
becomes a list of `Link` records, each route handler becomes a pure
function from request data and store state to a response and a new store
state, and each SQL statement is translated to the corresponding list
operation.  The redirect route wraps its SELECT ... FOR UPDATE and UPDATE
in a single transaction, so it is modelled as one atomic function on the
store.  Postgres `ILIKE` pattern matching (with `%`, `_` wildcards and the
backslash escape, matched case-insensitively) is modelled by `likeMatch`.
The WHATWG URL parser invoked via `new URL(...)` is kept abstract as a
boolean parameter `parseOk`, since the claims only concern the trimming
and scheme-prepending around it.
-/

/-- Link record: one row of the `links` table
(id, code, original_url, click_count, last_clicked_at, created_at).
Timestamps are modelled as natural numbers. -/
structure Link where
  id : Nat
  code : String
  originalUrl : String
  clickCount : Nat
  lastClickedAt : Option Nat
  createdAt : Nat
deriving DecidableEq, Repr

/-- The store state: the rows of the `links` table. -/
abbrev Store := List Link

/-- Lookup of the first row whose `code` column equals `c`
(SQL `SELECT ... FROM links WHERE code = $1`). -/
def findByCode (store : Store) (c : String) : Option Link :=
  store.find? (fun l => l.code == c)

/-- JavaScript `String.prototype.trim()`: strip leading and trailing
whitespace.  Defined over the character list so it computes by kernel
reduction; `Char.isWhitespace` covers the space, tab, carriage-return and
newline characters, the whitespace that actually occurs in the claims. -/
def jsTrim (s : String) : String :=
  String.mk
    (((s.toList.dropWhile Char.isWhitespace).reverse.dropWhile Char.isWhitespace).reverse)

/-- Translation of the test `/^https?:\/\//i.test(urlStr)` in
`normalizeUrl` (src/index.js line 61): a case-insensitive
`http://` or `https://` scheme test at the start of the string. -/
def hasHttpScheme (s : String) : Bool :=
  "http://".toList.isPrefixOf (s.toList.map Char.toLower) ||
    "https://".toList.isPrefixOf (s.toList.map Char.toLower)

/-- Translation of `normalizeUrl` (src/index.js lines 58-72).  The
argument `parseOk` abstracts the WHATWG `new URL(...)` constructor:
`parseOk u = true` means `new URL(u)` does not throw.  `raw = none`
models a missing (`undefined`) value and, like the empty string, is
falsy, so `if (!raw) return null` rejects both. -/
def normalizeUrl (parseOk : String → Bool) (raw : Option String) : Option String :=
  match raw with
  | none => none
  | some r =>
    if r = "" then none
    else
      let t := jsTrim r
      let u := if hasHttpScheme t then t else "https://" ++ t
      if parseOk u then some u else none

/-- Translation of `isValidCode` (src/index.js lines 74-76): the regex
`^[A-Za-z0-9]{6,8}$`, i.e. 6 to 8 characters, each drawn from the
character class `[A-Za-z0-9]`. -/
def isValidCode (s : String) : Bool :=
  (decide (6 ≤ s.length) && decide (s.length ≤ 8)) &&
    s.toList.all (fun c =>
      ('A' ≤ c && c ≤ 'Z') || ('a' ≤ c && c ≤ 'z') || ('0' ≤ c && c ≤ '9'))

/-- JavaScript `a || b` on possibly-undefined string values, as used for
`req.body.url || req.body.targetUrl || req.body.originalUrl`
(src/index.js lines 91-92): `undefined` and `""` are falsy. -/
def jsOr (a b : Option String) : Option String :=
  match a with
  | none => b
  | some s => if s = "" then b else some s

/-- Body of a `POST /api/links` request (src/index.js lines 80-92):
any of `url`, `targetUrl`, `originalUrl` plus an optional custom `code`.
`none` models an absent (`undefined`) field. -/
structure ReqBody where
  url : Option String
  targetUrl : Option String
  originalUrl : Option String
  code : Option String
deriving DecidableEq, Repr

/-- Outcome of the create route (src/index.js lines 88-138):
201 with the created row, 400 invalid URL, 400 invalid code,
or 409 duplicate code. -/
inductive CreateResult where
  | created (l : Link)
  | invalidUrl
  | invalidCode
  | duplicate
deriving DecidableEq, Repr

/-- Modelled from the spec: the database schema (the `CREATE TABLE links`
statement) is not in the repository; the INSERT in src/index.js lists only
`code` and `original_url`, the remaining columns being filled by schema
defaults.  Per spec §4.4 a new record has `clickCount = 0`,
`lastClickedAt = null` and `createdAt = now`. -/
def newLink (newId : Nat) (code : String) (normalized : String) (now : Nat) : Link :=
  { id := newId, code := code, originalUrl := normalized,
    clickCount := 0, lastClickedAt := none, createdAt := now }

/-- The code the create route will use (src/index.js line 99):
the trimmed custom code when the `code` field is truthy, else the
generated one. -/
def chosenCode (genCode : String) (body : ReqBody) : String :=
  match body.code with
  | none => genCode
  | some s => if s = "" then genCode else jsTrim s

/-- The INSERT with the unique constraint on `code` (src/index.js lines
108-133): error 23505 — an existing row with the same code — becomes the
409 duplicate answer, otherwise the row is added. -/
def insertLink (store : Store) (link : Link) : CreateResult × Store :=
  if store.any (fun l => l.code == link.code) then (CreateResult.duplicate, store)
  else (CreateResult.created link, store ++ [link])

/-- Translation of the `POST /api/links` handler (src/index.js lines
88-138).  `genCode` is the value the nanoid generator would return on
this request; `newId`/`now` are the id and timestamp the database would
assign.  Steps, in source order: pick the long URL with JavaScript `||`;
normalize it (400 on failure); choose the code; validate it (400 on
failure); insert, with 409 on a duplicate code. -/
def createLink (parseOk : String → Bool) (genCode : String) (now : Nat) (newId : Nat)
    (body : ReqBody) (store : Store) : CreateResult × Store :=
  match normalizeUrl parseOk (jsOr (jsOr body.url body.targetUrl) body.originalUrl) with
  | none => (CreateResult.invalidUrl, store)
  | some normalized =>
    if ¬ isValidCode (chosenCode genCode body) then (CreateResult.invalidCode, store)
    else insertLink store (newLink newId (chosenCode genCode body) normalized now)

/-- Outcome of the redirect route `GET /:code`
(src/index.js lines 245-299): a 302 redirect or a 404. -/
inductive RedirectResult where
  | redirect302 (target : String)
  | notFound404
deriving DecidableEq, Repr

/-- The UPDATE of the redirect transaction (src/index.js lines 275-283):
`SET click_count = click_count + 1, last_clicked_at = NOW() WHERE id = $1`
applied to one row. -/
def bumpClick (now : Nat) (targetId : Nat) (l : Link) : Link :=
  if l.id = targetId then
    { l with clickCount := l.clickCount + 1, lastClickedAt := some now }
  else l

/-- Translation of the redirect handler `GET /:code` (src/index.js lines
245-299).  `favicon.ico` is rejected before any store access; otherwise
the whole transaction (SELECT ... FOR UPDATE, UPDATE, COMMIT) is one
atomic step: resolve the code, increment that row's counter, stamp
`last_clicked_at`, and redirect to the `original_url` read in the same
transaction. -/
def redirectHandler (now : Nat) (code : String) (store : Store) :
    RedirectResult × Store :=
  if code = "favicon.ico" then (RedirectResult.notFound404, store)
  else
    match findByCode store code with
    | none => (RedirectResult.notFound404, store)
    | some l => (RedirectResult.redirect302 l.originalUrl,
                 store.map (bumpClick now l.id))

/-- Postgres `LIKE`/`ILIKE` pattern matching on character lists, matched
case-insensitively (`ILIKE` lower-cases both sides): `%` matches any
sequence of characters (modelled by trying every suffix of the subject),
`_` matches exactly one character, a backslash escapes the next pattern
character, and any other character matches itself up to case.  A pattern
ending in a bare backslash is an error in Postgres; it is modelled as not
matching. -/
def likeMatch (p : List Char) (s : List Char) : Bool :=
  match p with
  | [] => s.isEmpty
  | p0 :: ps =>
    if p0 = '%' then s.tails.any (fun t => likeMatch ps t)
    else if p0 = '_' then
      match s with
      | [] => false
      | _ :: s' => likeMatch ps s'
    else if p0 = '\\' then
      match ps with
      | [] => false
      | p1 :: ps' =>
        match s with
        | [] => false
        | c :: s' => (p1.toLower == c.toLower) && likeMatch ps' s'
    else
      match s with
      | [] => false
      | c :: s' => (p0.toLower == c.toLower) && likeMatch ps s'

/-- The `code ILIKE $1 OR original_url ILIKE $1` test of the list route
with parameter `%term%` (src/index.js lines 153-157), applied to one
column value. -/
def ilike (term : String) (subject : String) : Bool :=
  likeMatch ('%' :: (term.toList ++ ['%'])) subject.toList

/-- Descending `created_at` order: `a` may precede `b` in the output of
`ORDER BY created_at DESC` exactly when `b.createdAt ≤ a.createdAt`. -/
def createdDesc (a b : Link) : Prop := b.createdAt ≤ a.createdAt

instance : DecidableRel createdDesc := fun a b => Nat.decLe b.createdAt a.createdAt

instance : IsTotal Link createdDesc := ⟨fun a b => Nat.le_total b.createdAt a.createdAt⟩

instance : IsTrans Link createdDesc := ⟨fun _ _ _ h h' => Nat.le_trans h' h⟩

/-- Translation of the `GET /api/links` handler (src/index.js lines
144-179): trim the `search` query value (absent becomes `""` through
JavaScript `||`); when non-empty, keep the rows where `code` or
`original_url` matches `ILIKE '%search%'`; return the rows ordered by
`created_at DESC` (`ORDER BY` modelled by a sort). -/
def listHandler (search : Option String) (store : Store) : List Link :=
  List.insertionSort createdDesc
    (if jsTrim (search.getD "") = "" then store
     else store.filter (fun l =>
       ilike (jsTrim (search.getD "")) l.code ||
         ilike (jsTrim (search.getD "")) l.originalUrl))

/-- Case-insensitive literal substring containment, the relation the spec
uses to describe search: `t` occurs in `s` once both are lower-cased.
This is the spec's wording, to be compared with the `ILIKE` matching the
code performs. -/
def containsCI (t s : String) : Bool :=
  (s.toList.map Char.toLower).tails.any
    (fun suf => (t.toList.map Char.toLower).isPrefixOf suf)

/-- A search term is plain when it contains none of the characters that
are special in a `LIKE` pattern (`%`, `_`, the backslash escape); for
such terms the spec's literal-substring reading and the code's `ILIKE`
matching will be shown to coincide. -/
def plainTerm (t : String) : Prop :=
  ∀ c ∈ t.toList, c ≠ '%' ∧ c ≠ '_' ∧ c ≠ '\\'

instance (t : String) : Decidable (plainTerm t) :=
  List.decidableBAll _ _

/-- Outcome of `DELETE /api/links/:code` (src/index.js lines 221-237). -/
inductive DeleteResult where
  | okDeleted
  | notFound
deriving DecidableEq, Repr

/-- Translation of the delete handler (src/index.js lines 221-237):
`DELETE FROM links WHERE code = $1`, 404 when no row was affected. -/
def deleteHandler (code : String) (store : Store) : DeleteResult × Store :=
  if store.any (fun l => l.code == code) then
    (DeleteResult.okDeleted, store.filter (fun l => !(l.code == code)))
  else (DeleteResult.notFound, store)

/-- One request to any of the routes that exist in src/index.js, carrying
the request data and the values the environment (nanoid, database id and
clock, URL parser) would supply.  `statsOp` is `GET /api/links/:code`,
`listOp` is `GET /api/links`, `redirectOp` is `GET /:code`. -/
inductive Op where
  | createOp (parseOk : String → Bool) (genCode : String) (now : Nat) (newId : Nat)
      (body : ReqBody)
  | listOp (search : Option String)
  | statsOp (code : String)
  | deleteOp (code : String)
  | redirectOp (now : Nat) (code : String)

/-- The store state after one request: the two read-only routes leave it
untouched, the others are the handlers above. -/
def step : Op → Store → Store
  | Op.createOp parseOk genCode now newId body, s => (createLink parseOk genCode now newId body s).2
  | Op.listOp _, s => s
  | Op.statsOp _, s => s
  | Op.deleteOp c, s => (deleteHandler c s).2
  | Op.redirectOp now c, s => (redirectHandler now c s).2

/-- The click-accounting invariant of one request `op`, observed at an
arbitrary code `c`: a link found after the request either existed before
with a counter no larger than afterwards, or is freshly created with
counter 0; a counter that changed at all was changed by a redirect for
`c` itself and grew by exactly 1; and a successful redirect for an
existing code `c` increments its counter by exactly 1. -/
def ClickInvariant (op : Op) (store : Store) (c : String) : Prop :=
  (∀ la, findByCode (step op store) c = some la →
    (findByCode store c = none → la.clickCount = 0) ∧
    (∀ lb, findByCode store c = some lb →
      lb.clickCount ≤ la.clickCount ∧
      (la.clickCount ≠ lb.clickCount →
        ∃ now, op = Op.redirectOp now c ∧ la.clickCount = lb.clickCount + 1))) ∧
  (∀ now lb, op = Op.redirectOp now c → c ≠ "favicon.ico" →
    findByCode store c = some lb →
    ∃ la, findByCode (step op store) c = some la ∧
      la.clickCount = lb.clickCount + 1 ∧ la.lastClickedAt = some now)

/-- Example rows used by the concrete witnesses below. -/
def linkA : Link :=
  { id := 1, code := "abc123", originalUrl := "https://a.example",
    clickCount := 4, lastClickedAt := none, createdAt := 10 }

/-- Second example row, distinct id and code, older `createdAt`. -/
def linkB : Link :=
  { id := 2, code := "xyz789", originalUrl := "https://b.example/Path",
    clickCount := 0, lastClickedAt := some 4, createdAt := 3 }

/-- Example row whose code collides with a generated code. -/
def linkG : Link :=
  { id := 3, code := "AbCdEfG", originalUrl := "https://g.example",
    clickCount := 1, lastClickedAt := none, createdAt := 7 }

/-! ## Theorems -/

/-- Updating a row's click statistics never changes its `code` column. -/
theorem bumpClick_code (now targetId : Nat) (l : Link) :
    (bumpClick now targetId l).code = l.code := by
  unfold bumpClick
  split <;> rfl

/-- Updating a row's click statistics never changes its `id` column. -/
theorem bumpClick_id (now targetId : Nat) (l : Link) :
    (bumpClick now targetId l).id = l.id := by
  unfold bumpClick
  split <;> rfl

/-- Code lookup commutes with the click-statistics update: the row found
after the UPDATE is the updated version of the row found before it. -/
theorem findByCode_map_bumpClick (now targetId : Nat) (store : Store) (c : String) :
    findByCode (store.map (bumpClick now targetId)) c =
      (findByCode store c).map (bumpClick now targetId) := by
  unfold findByCode
  have hp : ((fun l : Link => l.code == c) ∘ bumpClick now targetId) =
      (fun l : Link => l.code == c) := by
    funext x
    simp [Function.comp, bumpClick_code]
  rw [List.find?_map, hp]

/-- C9: a request `GET /favicon.ico` is answered with a not-found
response and the store is completely untouched, whatever it contains —
the reserved path is rejected before the handler ever consults the
store (the guard at src/index.js lines 248-251 precedes the lookup). -/
theorem favicon_rejected (now : Nat) (store : Store) :
    redirectHandler now "favicon.ico" store = (RedirectResult.notFound404, store) := by
  simp [redirectHandler]

/-- C9 witness at a concrete store. -/
theorem favicon_rejected_witness :
    redirectHandler 3 "favicon.ico"
        [{ id := 1, code := "favicon.ico", originalUrl := "https://a.example",
           clickCount := 2, lastClickedAt := none, createdAt := 0 }] =
      (RedirectResult.notFound404,
        [{ id := 1, code := "favicon.ico", originalUrl := "https://a.example",
           clickCount := 2, lastClickedAt := none, createdAt := 0 }]) :=
  favicon_rejected 3 _

/-- C2: when no link with code `c` exists, the redirect route answers 404
and the store state is returned completely unchanged — the transaction is
rolled back with no record created or mutated (src/index.js lines 268-271). -/
theorem redirect_missing_code (now : Nat) (c : String) (store : Store)
    (h : findByCode store c = none) :
    redirectHandler now c store = (RedirectResult.notFound404, store) := by
  unfold redirectHandler
  rw [h]
  split <;> rfl

/-- C2 witness: a concrete store with one link and a code it lacks. -/
theorem redirect_missing_code_witness :
    findByCode
        [{ id := 1, code := "abc123", originalUrl := "https://a.example",
           clickCount := 0, lastClickedAt := none, createdAt := 0 }] "zzzzzz" = none ∧
      redirectHandler 7 "zzzzzz"
          [{ id := 1, code := "abc123", originalUrl := "https://a.example",
             clickCount := 0, lastClickedAt := none, createdAt := 0 }] =
        (RedirectResult.notFound404,
          [{ id := 1, code := "abc123", originalUrl := "https://a.example",
             clickCount := 0, lastClickedAt := none, createdAt := 0 }]) :=
  ⟨by decide, redirect_missing_code 7 "zzzzzz" _ (by decide)⟩

/-- C6: `normalizeUrl` rejects the empty string; otherwise it trims the
input, prepends `https://` exactly when the trimmed string has no
case-insensitive `http://`/`https://` prefix, and returns the resulting
string exactly when the URL parser accepts it, `none` otherwise. -/
theorem normalizeUrl_spec (parseOk : String → Bool) (s : String) :
    (s = "" → normalizeUrl parseOk (some s) = none) ∧
    (s ≠ "" → hasHttpScheme (jsTrim s) = true →
      normalizeUrl parseOk (some s) =
        (if parseOk (jsTrim s) then some (jsTrim s) else none)) ∧
    (s ≠ "" → hasHttpScheme (jsTrim s) = false →
      normalizeUrl parseOk (some s) =
        (if parseOk ("https://" ++ jsTrim s) then some ("https://" ++ jsTrim s) else none)) := by
  refine ⟨fun h => by simp [normalizeUrl, h], fun h hs => ?_, fun h hs => ?_⟩ <;>
    simp [normalizeUrl, h, hs]

/-- C6 witness: a schemeless input gains `https://` after trimming. -/
theorem normalizeUrl_spec_witness :
    normalizeUrl (fun _ => true) (some " example.com ") = some "https://example.com" :=
  ((normalizeUrl_spec (fun _ => true) " example.com ").2.2 (by decide) (by decide)).trans
    (by decide)

/-- C7: `isValidCode` accepts exactly the strings of length 6 to 8 whose
characters all lie in the ASCII letter or digit ranges. -/
theorem isValidCode_iff (s : String) :
    isValidCode s = true ↔
      6 ≤ s.length ∧ s.length ≤ 8 ∧
        ∀ c ∈ s.toList,
          ('A' ≤ c ∧ c ≤ 'Z') ∨ ('a' ≤ c ∧ c ≤ 'z') ∨ ('0' ≤ c ∧ c ≤ '9') := by
  simp [isValidCode, List.all_eq_true, and_assoc, or_assoc]

/-- C7 witness: a concrete accepted code. -/
theorem isValidCode_iff_witness :
    6 ≤ String.length "abc123" ∧ String.length "abc123" ≤ 8 ∧
      ∀ c ∈ "abc123".toList,
        ('A' ≤ c ∧ c ≤ 'Z') ∨ ('a' ≤ c ∧ c ≤ 'z') ∨ ('0' ≤ c ∧ c ≤ '9') :=
  (isValidCode_iff "abc123").mp (by decide)

/-- C1: for a store holding a link with code `c`, click count `n` and
original URL `u`, a redirect request `GET /:c` (with `c` not
`favicon.ico`) answers a 302 redirect to `u`, and afterwards that link's
click count is `n + 1` and its `lastClickedAt` is the time of the click;
the redirect target is the `originalUrl` of the very record the atomic
transaction incremented. -/
theorem redirect_hit (now : Nat) (c u : String) (n : Nat) (store : Store) (l : Link)
    (hfind : findByCode store c = some l) (hc : c ≠ "favicon.ico")
    (hu : l.originalUrl = u) (hn : l.clickCount = n) :
    (redirectHandler now c store).1 = RedirectResult.redirect302 u ∧
      ∃ l', findByCode (redirectHandler now c store).2 c = some l' ∧
        l'.clickCount = n + 1 ∧ l'.lastClickedAt = some now ∧ l'.originalUrl = u := by
  have hred : redirectHandler now c store =
      (RedirectResult.redirect302 l.originalUrl, store.map (bumpClick now l.id)) := by
    unfold redirectHandler
    rw [if_neg hc, hfind]
  refine ⟨by rw [hred, hu], ⟨bumpClick now l.id l, ?_, ?_, ?_, ?_⟩⟩
  · rw [hred]
    show findByCode (store.map (bumpClick now l.id)) c = _
    rw [findByCode_map_bumpClick, hfind]
    rfl
  · unfold bumpClick
    rw [if_pos rfl]
    simpa using hn
  · unfold bumpClick
    rw [if_pos rfl]
  · unfold bumpClick
    rw [if_pos rfl]
    simpa using hu

/-- C1 witness at a concrete one-row store. -/
theorem redirect_hit_witness :
    findByCode [linkA] "abc123" = some linkA ∧
      ((redirectHandler 9 "abc123" [linkA]).1 =
          RedirectResult.redirect302 "https://a.example" ∧
        ∃ l', findByCode (redirectHandler 9 "abc123" [linkA]).2 "abc123" = some l' ∧
          l'.clickCount = 4 + 1 ∧ l'.lastClickedAt = some 9 ∧
          l'.originalUrl = "https://a.example") :=
  ⟨by decide,
   redirect_hit 9 "abc123" "https://a.example" 4 [linkA] linkA (by decide) (by decide)
     (by decide) (by decide)⟩

/-- C4: a create request supplying an explicit custom code whose trimmed
form already exists in the store (with a well-formed URL and a
syntactically valid code, so that the earlier 400 checks pass) fails
with the 409 duplicate-code error, and the store — in particular the
existing record with that code — is left completely unmodified; no new
record is inserted. -/
theorem create_custom_duplicate (parseOk : String → Bool) (genCode : String)
    (now newId : Nat) (body : ReqBody) (store : Store) (c : String)
    (hcode : body.code = some c) (hne : c ≠ "")
    (hurl : ∃ nu,
      normalizeUrl parseOk (jsOr (jsOr body.url body.targetUrl) body.originalUrl) = some nu)
    (hvalid : isValidCode (jsTrim c) = true)
    (hdup : ∃ l ∈ store, l.code = jsTrim c) :
    createLink parseOk genCode now newId body store = (CreateResult.duplicate, store) := by
  obtain ⟨nu, hnu⟩ := hurl
  have hany : store.any (fun l => l.code == jsTrim c) = true := by
    rw [List.any_eq_true]
    obtain ⟨l, hl, he⟩ := hdup
    exact ⟨l, hl, by simp [he]⟩
  simp [createLink, chosenCode, insertLink, newLink, hnu, hcode, hne, hvalid, hany]

/-- C4 witness at a concrete store: the code `abc123` already exists. -/
theorem create_custom_duplicate_witness :
    (∃ nu, normalizeUrl (fun _ => true)
        (jsOr (jsOr (some "x.example") none) none) = some nu) ∧
      isValidCode (jsTrim "abc123") = true ∧
      (∃ l ∈ [linkA], l.code = jsTrim "abc123") ∧
      createLink (fun _ => true) "zzzzzz" 1 5
          { url := some "x.example", targetUrl := none, originalUrl := none,
            code := some "abc123" } [linkA] =
        (CreateResult.duplicate, [linkA]) :=
  ⟨⟨"https://x.example", by decide⟩, by decide, by decide,
   create_custom_duplicate (fun _ => true) "zzzzzz" 1 5
     { url := some "x.example", targetUrl := none, originalUrl := none,
       code := some "abc123" } [linkA] "abc123" (by decide) (by decide)
     ⟨"https://x.example", by decide⟩ (by decide) (by decide)⟩

/-- C3 counterexample: with no custom code supplied and the freshly
generated code `AbCdEfG` already present in the store, the create
operation answers the 409 duplicate-code client error — it does not
retry with another generated code, contradicting the claim that a
duplicate generated code is retried and never surfaces as 409. -/
theorem create_generated_duplicate_cex :
    createLink (fun _ => true) "AbCdEfG" 8 4
        { url := some "example.com", targetUrl := none, originalUrl := none,
          code := none } [linkG] =
      (CreateResult.duplicate, [linkG]) := by decide

/-- C3 amended: when no custom code is supplied (the `code` field absent
or empty) and the generated code already exists in the store, creation is
attempted exactly once and surfaces the same 409 duplicate-code client
error as for a custom code, leaving the store unchanged — there is no
retry loop and no internal-error fallback. -/
theorem create_generated_duplicate (parseOk : String → Bool) (genCode : String)
    (now newId : Nat) (body : ReqBody) (store : Store)
    (hnocustom : body.code = none ∨ body.code = some "")
    (hurl : ∃ nu,
      normalizeUrl parseOk (jsOr (jsOr body.url body.targetUrl) body.originalUrl) = some nu)
    (hvalid : isValidCode genCode = true)
    (hdup : ∃ l ∈ store, l.code = genCode) :
    createLink parseOk genCode now newId body store = (CreateResult.duplicate, store) := by
  obtain ⟨nu, hnu⟩ := hurl
  have hany : store.any (fun l => l.code == genCode) = true := by
    rw [List.any_eq_true]
    obtain ⟨l, hl, he⟩ := hdup
    exact ⟨l, hl, by simp [he]⟩
  rcases hnocustom with h | h <;>
    simp [createLink, chosenCode, insertLink, newLink, hnu, h, hvalid, hany]

/-- C3 amended witness, reusing the concrete collision of the
counterexample's shape at different request values. -/
theorem create_generated_duplicate_witness :
    (({ url := some "example.org", targetUrl := none, originalUrl := none,
        code := none } : ReqBody).code = none ∨
      ({ url := some "example.org", targetUrl := none, originalUrl := none,
         code := none } : ReqBody).code = some "") ∧
      (∃ nu, normalizeUrl (fun _ => true)
          (jsOr (jsOr (some "example.org") none) none) = some nu) ∧
      isValidCode "AbCdEfG" = true ∧
      (∃ l ∈ [linkG], l.code = "AbCdEfG") ∧
      createLink (fun _ => true) "AbCdEfG" 9 5
          { url := some "example.org", targetUrl := none, originalUrl := none,
            code := none } [linkG] =
        (CreateResult.duplicate, [linkG]) :=
  ⟨Or.inl (by decide), ⟨"https://example.org", by decide⟩, by decide, by decide,
   create_generated_duplicate (fun _ => true) "AbCdEfG" 9 5
     { url := some "example.org", targetUrl := none, originalUrl := none,
       code := none } [linkG] (Or.inl (by decide))
     ⟨"https://example.org", by decide⟩ (by decide) (by decide)⟩

/-- C10: a custom code is trimmed of surrounding whitespace before being
validated and stored: when the trimmed form is a valid code that is not
yet taken (and the URL is well-formed), creation succeeds and the stored
record carries the trimmed code, not the original string. -/
theorem create_trims_custom_code (parseOk : String → Bool) (genCode : String)
    (now newId : Nat) (body : ReqBody) (store : Store) (w nu : String)
    (hcode : body.code = some w) (hne : w ≠ "")
    (hurl : normalizeUrl parseOk (jsOr (jsOr body.url body.targetUrl) body.originalUrl)
      = some nu)
    (hvalid : isValidCode (jsTrim w) = true)
    (hnodup : ∀ l ∈ store, l.code ≠ jsTrim w) :
    createLink parseOk genCode now newId body store =
      (CreateResult.created (newLink newId (jsTrim w) nu now),
       store ++ [newLink newId (jsTrim w) nu now]) := by
  have hany : store.any (fun l => l.code == jsTrim w) = false := by
    rw [List.any_eq_false]
    intro l hl
    simp [hnodup l hl]
  simp [createLink, chosenCode, insertLink, newLink, hurl, hcode, hne, hvalid, hany]

/-- C10 witness: the whitespace-wrapped code `"  abc123  "` is stored as
`"abc123"`. -/
theorem create_trims_custom_code_witness :
    jsTrim "  abc123  " = "abc123" ∧
      isValidCode (jsTrim "  abc123  ") = true ∧
      createLink (fun _ => true) "zzzzzz" 10 6
          { url := some "y.example", targetUrl := none, originalUrl := none,
            code := some "  abc123  " } [linkB] =
        (CreateResult.created (newLink 6 (jsTrim "  abc123  ") "https://y.example" 10),
         [linkB] ++ [newLink 6 (jsTrim "  abc123  ") "https://y.example" 10]) :=
  ⟨by decide, by decide,
   create_trims_custom_code (fun _ => true) "zzzzzz" 10 6
     { url := some "y.example", targetUrl := none, originalUrl := none,
       code := some "  abc123  " } [linkB] "  abc123  " "https://y.example"
     (by decide) (by decide) (by decide) (by decide) (by decide)⟩


/-- Filtering with a predicate that keeps every match of `p` does not
change the first `p`-match. -/
theorem find?_filter_of_imp {α : Type} (p q : α → Bool) (l : List α)
    (h : ∀ a, p a = true → q a = true) :
    (l.filter q).find? p = l.find? p := by
  induction l with
  | nil => rfl
  | cons a t ih =>
    by_cases hq : q a = true
    · rw [List.filter_cons_of_pos hq]
      by_cases hp : p a = true
      · rw [List.find?_cons_of_pos _ hp, List.find?_cons_of_pos _ hp]
      · rw [List.find?_cons_of_neg _ hp, List.find?_cons_of_neg _ hp, ih]
    · have hp : ¬ p a = true := fun hpa => hq (h a hpa)
      rw [List.filter_cons_of_neg hq, List.find?_cons_of_neg _ hp, ih]

/-- The create route either leaves the store untouched or appends one
fresh record whose code was not present before. -/
theorem createLink_store_cases (parseOk : String → Bool) (genCode : String)
    (now newId : Nat) (body : ReqBody) (store : Store) :
    (createLink parseOk genCode now newId body store).2 = store ∨
      ∃ cd nu, (createLink parseOk genCode now newId body store).2 =
          store ++ [newLink newId cd nu now] ∧
        store.any (fun l => l.code == cd) = false := by
  unfold createLink
  rcases hnu : normalizeUrl parseOk (jsOr (jsOr body.url body.targetUrl) body.originalUrl)
    with _ | nu
  · left; rfl
  · by_cases hv : isValidCode (chosenCode genCode body) = true
    · by_cases ha : store.any (fun l => l.code == chosenCode genCode body) = true
      · left
        simp [hv, insertLink, newLink, ha]
      · right
        exact ⟨chosenCode genCode body, nu,
          by simp [hv, insertLink, newLink, ha], by simpa using ha⟩
    · left
      simp [hv]

/-- When lookup at `c` is unchanged by a request, the per-link part of
the click invariant holds with any explanation `P` for a change. -/
theorem invariant_of_same_lookup (c : String) (store st' : Store) (P : Link → Link → Prop)
    (h : findByCode st' c = findByCode store c) :
    ∀ la, findByCode st' c = some la →
      (findByCode store c = none → la.clickCount = 0) ∧
      (∀ lb, findByCode store c = some lb →
        lb.clickCount ≤ la.clickCount ∧ (la.clickCount ≠ lb.clickCount → P la lb)) := by
  intro la hla
  rw [h] at hla
  refine ⟨fun hnone => ?_, fun lb hlb => ?_⟩
  · rw [hla] at hnone
    cases hnone
  · rw [hla] at hlb
    injection hlb with he
    exact ⟨le_of_eq (by rw [he]), fun hne => absurd (by rw [he]) hne⟩

/-- C8: across every operation of the system, a link's click counter
never decreases, every newly visible link starts at 0, any change to a
counter comes from a redirect for that very code and adds exactly 1, and
a successful redirect for an existing code adds exactly 1 and stamps the
click time.  Requires the store invariant that row ids are pairwise
distinct, which the database primary key provides. -/
theorem clickInvariant_all_ops (op : Op) (store : Store) (c : String)
    (hwf : store.Pairwise (fun a b => a.id ≠ b.id)) :
    ClickInvariant op store c := by
  have hsym : Symmetric (fun a b : Link => a.id ≠ b.id) := fun a b h => Ne.symm h
  cases op with
  | listOp search =>
    exact ⟨invariant_of_same_lookup c store (step (Op.listOp search) store) _ rfl,
      fun now lb heq => Op.noConfusion heq⟩
  | statsOp cd =>
    exact ⟨invariant_of_same_lookup c store (step (Op.statsOp cd) store) _ rfl,
      fun now lb heq => Op.noConfusion heq⟩
  | createOp pk g nw nid body =>
    refine ⟨?_, fun now lb heq => Op.noConfusion heq⟩
    rcases createLink_store_cases pk g nw nid body store with h | ⟨cd, nu, h, hfresh⟩
    · exact invariant_of_same_lookup c store (step (Op.createOp pk g nw nid body) store) _
        (by show findByCode (createLink pk g nw nid body store).2 c = _; rw [h])
    · intro la hla
      have hstep : findByCode (step (Op.createOp pk g nw nid body) store) c =
          (findByCode store c).or (findByCode [newLink nid cd nu nw] c) := by
        show findByCode (createLink pk g nw nid body store).2 c = _
        rw [h]
        exact List.find?_append
      rw [hstep] at hla
      refine ⟨fun hnone => ?_, fun lb hlb => ?_⟩
      · rw [hnone, Option.none_or] at hla
        unfold findByCode at hla
        rw [List.find?_singleton] at hla
        split at hla
        · injection hla with he
          rw [← he]
          rfl
        · cases hla
      · rw [hlb] at hla
        have hla' : some lb = some la := hla
        injection hla' with he
        exact ⟨le_of_eq (by rw [he]), fun hne => absurd (by rw [he]) hne⟩
  | deleteOp cd =>
    refine ⟨?_, fun now lb heq => Op.noConfusion heq⟩
    have hstep : step (Op.deleteOp cd) store = (deleteHandler cd store).2 := rfl
    unfold deleteHandler at hstep
    by_cases ha : store.any (fun l => l.code == cd) = true
    · rw [if_pos ha] at hstep
      by_cases hcc : cd = c
      · subst hcc
        intro la hla
        have hnone : findByCode (step (Op.deleteOp cd) store) cd = none := by
          rw [hstep]
          unfold findByCode
          rw [List.find?_eq_none]
          intro x hx
          simpa using (List.mem_filter.mp hx).2
        rw [hnone] at hla
        cases hla
      · refine invariant_of_same_lookup c store (step (Op.deleteOp cd) store) _ ?_
        rw [hstep]
        unfold findByCode
        refine find?_filter_of_imp _ _ _ ?_
        intro a hpa
        have hac : a.code = c := by simpa using hpa
        simp [hac, Ne.symm hcc]
    · rw [if_neg ha] at hstep
      exact invariant_of_same_lookup c store (step (Op.deleteOp cd) store) _ (by rw [hstep])
  | redirectOp nw cd =>
    have hstep : step (Op.redirectOp nw cd) store = (redirectHandler nw cd store).2 := rfl
    by_cases hfav : cd = "favicon.ico"
    · have hsame : step (Op.redirectOp nw cd) store = store := by
        rw [hstep]
        unfold redirectHandler
        rw [if_pos hfav]
      refine ⟨invariant_of_same_lookup c store (step (Op.redirectOp nw cd) store) _
        (by rw [hsame]), ?_⟩
      intro now lb heq hc hlb
      injection heq with hnow hcd
      exact absurd (hcd ▸ hfav) hc
    · rcases hl : findByCode store cd with _ | l'
      · have hsame : step (Op.redirectOp nw cd) store = store := by
          rw [hstep]
          unfold redirectHandler
          rw [if_neg hfav, hl]
        refine ⟨invariant_of_same_lookup c store (step (Op.redirectOp nw cd) store) _
          (by rw [hsame]), ?_⟩
        intro now lb heq hc hlb
        injection heq with hnow hcd
        subst hcd
        rw [hl] at hlb
        cases hlb
      · have hlook : findByCode (step (Op.redirectOp nw cd) store) c =
            (findByCode store c).map (bumpClick nw l'.id) := by
          rw [hstep]
          unfold redirectHandler
          rw [if_neg hfav, hl]
          exact findByCode_map_bumpClick nw l'.id store c
        constructor
        · intro la hla
          rw [hlook] at hla
          refine ⟨fun hnone => ?_, fun lb hlb => ?_⟩
          · rw [hnone] at hla
            cases hla
          · rw [hlb] at hla
            injection hla with he
            subst he
            by_cases hid : lb.id = l'.id
            · have hlb' : lb = l' := by
                by_contra hne
                exact absurd hid (List.Pairwise.forall hsym hwf
                  (List.mem_of_find?_eq_some hlb) (List.mem_of_find?_eq_some hl) hne)
              have h1 : lb.code = c := by simpa using List.find?_some hlb
              have h2 : l'.code = cd := by simpa using List.find?_some hl
              have hcdc : cd = c := by rw [← h2, ← hlb', h1]
              refine ⟨?_, fun hne => ⟨nw, by rw [hcdc], ?_⟩⟩
              · unfold bumpClick
                rw [if_pos hid]
                exact Nat.le_succ _
              · unfold bumpClick
                rw [if_pos hid]
            · have hsame : (bumpClick nw l'.id lb).clickCount = lb.clickCount := by
                unfold bumpClick
                rw [if_neg hid]
              exact ⟨le_of_eq hsame.symm, fun hne => absurd hsame hne⟩
        · intro now lb heq hc hlb
          injection heq with hnow hcd
          subst hnow
          subst hcd
          rw [hl] at hlb
          injection hlb with he
          subst he
          refine ⟨bumpClick nw l'.id l', ?_, ?_, ?_⟩
          · rw [hlook, hl]
            rfl
          · unfold bumpClick
            rw [if_pos rfl]
          · unfold bumpClick
            rw [if_pos rfl]

/-- C8 witness: the invariant at a concrete redirect request over a
two-row store with distinct ids. -/
theorem clickInvariant_all_ops_witness :
    List.Pairwise (fun a b : Link => a.id ≠ b.id) [linkA, linkB] ∧
      ClickInvariant (Op.redirectOp 9 "abc123") [linkA, linkB] "abc123" :=
  ⟨by decide, clickInvariant_all_ops (Op.redirectOp 9 "abc123") [linkA, linkB] "abc123"
    (by decide)⟩

/-- Unfolding equation: the empty pattern matches only the empty string. -/
theorem likeMatch_nil (s : List Char) : likeMatch [] s = s.isEmpty := rfl

/-- Unfolding equation for a leading `%` wildcard: some suffix of the
subject must match the rest of the pattern. -/
theorem likeMatch_percent (ps s : List Char) :
    likeMatch ('%' :: ps) s = s.tails.any (fun t => likeMatch ps t) := by
  rw [likeMatch.eq_def]
  rfl

/-- A plain pattern character never matches the empty subject. -/
theorem likeMatch_plain_nil (p0 : Char) (ps : List Char)
    (h1 : p0 ≠ '%') (h2 : p0 ≠ '_') (h3 : p0 ≠ '\\') :
    likeMatch (p0 :: ps) [] = false := by
  rw [likeMatch.eq_def]
  show (if p0 = '%' then ([] : List Char).tails.any (fun t => likeMatch ps t)
      else if p0 = '_' then false
      else if p0 = '\\' then
        (match ps with
         | [] => false
         | _ :: _ => false)
      else false) = false
  rw [if_neg h1, if_neg h2, if_neg h3]

/-- A plain pattern character matches the head of the subject up to
case. -/
theorem likeMatch_plain_cons (p0 : Char) (ps : List Char) (c : Char) (s' : List Char)
    (h1 : p0 ≠ '%') (h2 : p0 ≠ '_') (h3 : p0 ≠ '\\') :
    likeMatch (p0 :: ps) (c :: s') = ((p0.toLower == c.toLower) && likeMatch ps s') := by
  rw [likeMatch.eq_def]
  show (if p0 = '%' then (c :: s').tails.any (fun t => likeMatch ps t)
      else if p0 = '_' then likeMatch ps s'
      else if p0 = '\\' then
        (match ps with
         | [] => false
         | p1 :: ps' => (p1.toLower == c.toLower) && likeMatch ps' s')
      else (p0.toLower == c.toLower) && likeMatch ps s') =
    ((p0.toLower == c.toLower) && likeMatch ps s')
  rw [if_neg h1, if_neg h2, if_neg h3]

/-- A pattern headed by `%` matches exactly when some suffix of the
subject matches the remaining pattern. -/
theorem likeMatch_percent_iff (ps s : List Char) :
    likeMatch ('%' :: ps) s = true ↔ ∃ s2, s2 <:+ s ∧ likeMatch ps s2 = true := by
  rw [likeMatch_percent, List.any_eq_true]
  constructor
  · rintro ⟨x, hx, hm⟩
    exact ⟨x, (List.mem_tails _ _).mp hx, hm⟩
  · rintro ⟨x, hx, hm⟩
    exact ⟨x, (List.mem_tails _ _).mpr hx, hm⟩

/-- A pattern of plain characters matches exactly the
case-insensitively equal strings. -/
theorem likeMatch_plain_eq :
    ∀ t : List Char, (∀ c ∈ t, c ≠ '%' ∧ c ≠ '_' ∧ c ≠ '\\') →
      ∀ s, (likeMatch t s = true ↔ t.map Char.toLower = s.map Char.toLower) := by
  intro t
  induction t with
  | nil =>
    intro _ s
    cases s with
    | nil => simp [likeMatch_nil]
    | cons c s' => simp [likeMatch_nil]
  | cons p0 ps ih =>
    intro hp s
    obtain ⟨h1, h2, h3⟩ := hp p0 (List.mem_cons_self _ _)
    have hps := fun c hc => hp c (List.mem_cons_of_mem _ hc)
    cases s with
    | nil => simp [likeMatch_plain_nil p0 ps h1 h2 h3]
    | cons c s' => simp [likeMatch_plain_cons p0 ps c s' h1 h2 h3, ih hps s']

/-- A plain pattern followed by `%` matches exactly the strings having a
case-insensitively equal prefix. -/
theorem likeMatch_plain_percent :
    ∀ t : List Char, (∀ c ∈ t, c ≠ '%' ∧ c ≠ '_' ∧ c ≠ '\\') →
      ∀ s, (likeMatch (t ++ ['%']) s = true ↔
        ∃ s1, s1 <+: s ∧ t.map Char.toLower = s1.map Char.toLower) := by
  intro t
  induction t with
  | nil =>
    intro _ s
    constructor
    · intro _
      exact ⟨[], List.nil_prefix, rfl⟩
    · intro _
      rw [show ([] ++ ['%'] : List Char) = '%' :: [] from rfl, likeMatch_percent_iff]
      exact ⟨[], List.nil_suffix, rfl⟩
  | cons p0 ps ih =>
    intro hp s
    obtain ⟨h1, h2, h3⟩ := hp p0 (List.mem_cons_self _ _)
    have hps := fun c hc => hp c (List.mem_cons_of_mem _ hc)
    rw [show (p0 :: ps) ++ ['%'] = p0 :: (ps ++ ['%']) from rfl]
    cases s with
    | nil =>
      rw [likeMatch_plain_nil p0 (ps ++ ['%']) h1 h2 h3]
      simp [ List.prefix_nil]
    | cons c s' =>
      rw [likeMatch_plain_cons p0 (ps ++ ['%']) c s' h1 h2 h3]
      constructor
      · intro hm
        have hm' := (Bool.and_eq_true _ _).mp hm
        have hpc : p0.toLower = c.toLower := beq_iff_eq.mp hm'.1
        obtain ⟨s1, hs1, hmap⟩ := (ih hps s').mp hm'.2
        exact ⟨c :: s1, List.cons_prefix_cons.mpr ⟨rfl, hs1⟩, by simp [hpc, hmap]⟩
      · rintro ⟨s1, hs1, hmap⟩
        cases s1 with
        | nil => simp at hmap
        | cons c1 s1' =>
          obtain ⟨hc1, hs1'⟩ := List.cons_prefix_cons.mp hs1
          subst hc1
          simp only [List.map_cons, List.cons.injEq] at hmap
          rw [hmap.1]
          simp [(ih hps s').mpr ⟨s1', hs1', hmap.2⟩]

/-- The pattern `%t%` for a plain term `t` matches exactly the subjects
containing `t` as a case-insensitive substring. -/
theorem likeMatch_contains_iff (t s : List Char)
    (hp : ∀ c ∈ t, c ≠ '%' ∧ c ≠ '_' ∧ c ≠ '\\') :
    likeMatch ('%' :: (t ++ ['%'])) s = true ↔
      (t.map Char.toLower) <:+: (s.map Char.toLower) := by
  rw [likeMatch_percent_iff]
  constructor
  · rintro ⟨s2, hsuf, hm⟩
    obtain ⟨s1, hpre, hmap⟩ := (likeMatch_plain_percent t hp s2).mp hm
    rw [ List.infix_iff_prefix_suffix]
    refine ⟨s2.map Char.toLower, ?_, hsuf.map Char.toLower⟩
    rw [hmap]
    exact hpre.map Char.toLower
  · intro hinf
    rw [ List.infix_iff_prefix_suffix] at hinf
    obtain ⟨u, hupre, husuf⟩ := hinf
    obtain ⟨w, hw⟩ := husuf
    obtain ⟨l1, l2, hs12, _, hu⟩ := List.map_eq_append_iff.mp hw.symm
    obtain ⟨v, hv⟩ := hupre
    obtain ⟨a, b, hab, hma, _⟩ := List.append_eq_map_iff.mp (hu ▸ hv)
    exact ⟨l2, ⟨l1, hs12.symm⟩,
      (likeMatch_plain_percent t hp l2).mpr ⟨a, ⟨b, hab.symm⟩, hma.symm⟩⟩

/-- The spec-side containment test agrees with case-insensitive list
infix containment. -/
theorem containsCI_iff (t s : String) :
    containsCI t s = true ↔
      (t.toList.map Char.toLower) <:+: (s.toList.map Char.toLower) := by
  unfold containsCI
  rw [List.any_eq_true]
  constructor
  · rintro ⟨x, hx, hpre⟩
    rw [ List.infix_iff_prefix_suffix]
    exact ⟨x, List.isPrefixOf_iff_prefix.mp hpre, (List.mem_tails _ _).mp hx⟩
  · intro h
    rw [ List.infix_iff_prefix_suffix] at h
    obtain ⟨u, hpre, hsuf⟩ := h
    exact ⟨u, (List.mem_tails _ _).mpr hsuf, List.isPrefixOf_iff_prefix.mpr hpre⟩

/-- For plain search terms, the `ILIKE '%t%'` test the code performs is
the case-insensitive literal-substring test the spec describes. -/
theorem ilike_eq_containsCI (t s : String) (hp : plainTerm t) :
    ilike t s = containsCI t s := by
  rw [Bool.eq_iff_iff]
  unfold ilike
  rw [likeMatch_contains_iff _ _ hp, containsCI_iff]

/-- C5 counterexample: for the search term `" % "`, whose trimmed form is
the `%` wildcard, the list route returns a link that does not contain
`" % "` (nor `%`) as a literal substring of its code or URL — the term is
trimmed and then interpolated unescaped into the `ILIKE` pattern, where
`%` matches anything, so the claim's literal-substring reading is false. -/
theorem list_wildcard_cex :
    containsCI " % " linkA.code = false ∧
      containsCI " % " linkA.originalUrl = false ∧
      listHandler (some " % ") [linkA] = [linkA] := by decide

/-- C5 amended: for every search term whose trimmed form contains no
`LIKE` metacharacter (`%`, `_`, backslash), the list route returns
exactly the links whose code or original URL contains the trimmed term
as a case-insensitive literal substring — all links when the term is
absent or trims to empty — ordered by `createdAt` descending. -/
theorem list_search_exact (search : Option String) (store : Store)
    (hplain : plainTerm (jsTrim (search.getD ""))) :
    List.Perm (listHandler search store)
      (store.filter (fun l =>
        (jsTrim (search.getD "") == "") ||
          containsCI (jsTrim (search.getD "")) l.code ||
          containsCI (jsTrim (search.getD "")) l.originalUrl)) ∧
      List.Sorted createdDesc (listHandler search store) := by
  constructor
  · unfold listHandler
    by_cases hs : jsTrim (search.getD "") = ""
    · rw [if_pos hs]
      have hfun : (fun l : Link => (jsTrim (search.getD "") == "") ||
          containsCI (jsTrim (search.getD "")) l.code ||
          containsCI (jsTrim (search.getD "")) l.originalUrl) = (fun _ => true) := by
        funext l
        simp [hs]
      rw [hfun, List.filter_true]
      exact List.perm_insertionSort _ _
    · rw [if_neg hs]
      have hbeq : (jsTrim (search.getD "") == "") = false := by
        simpa using hs
      have hfun : ∀ l ∈ store, (ilike (jsTrim (search.getD "")) l.code ||
          ilike (jsTrim (search.getD "")) l.originalUrl) =
          ((jsTrim (search.getD "") == "") ||
            containsCI (jsTrim (search.getD "")) l.code ||
            containsCI (jsTrim (search.getD "")) l.originalUrl) := by
        intro l _
        rw [ilike_eq_containsCI _ _ hplain, ilike_eq_containsCI _ _ hplain, hbeq,
          Bool.false_or]
      rw [List.filter_congr hfun]
      exact List.perm_insertionSort _ _
  · unfold listHandler
    exact List.sorted_insertionSort createdDesc _

/-- C5 amended witness: a concrete case-insensitive search over a
two-row store. -/
theorem list_search_exact_witness :
    plainTerm (jsTrim ((some "B.EX").getD "")) ∧
      (List.Perm (listHandler (some "B.EX") [linkA, linkB])
          ([linkA, linkB].filter (fun l =>
            (jsTrim ((some "B.EX").getD "") == "") ||
              containsCI (jsTrim ((some "B.EX").getD "")) l.code ||
              containsCI (jsTrim ((some "B.EX").getD "")) l.originalUrl)) ∧
        List.Sorted createdDesc (listHandler (some "B.EX") [linkA, linkB])) :=
  ⟨by decide, list_search_exact (some "B.EX") [linkA, linkB] (by decide)⟩
